import Mathlib

/-
Verification of the quantum-Zeno Battleship simulator (src/Battleship.py).

The program builds one of two fixed qiskit circuits (`build_zeno_circuit`),
evolves the all-zero initial state through it, and measures all qubits.
We embed the circuit builder, the state-vector semantics of the two gates
the circuits use (qiskit's `ry` and `cx`), the Born-rule outcome
distribution keyed by qiskit's measurement bit strings, and the helper
`parse_input`.  Amplitudes stay real throughout because the gate set is
real-valued.
-/

namespace Battleship

noncomputable section

/-- A gate operation appended to a circuit: either `qc.ry(angle, qubit)` or
`qc.cx(control, target)` from src/Battleship.py. -/
inductive Gate
  | ry (qubit : Nat) (angle : ℝ)
  | cx (control target : Nat)

/-- A built circuit: number of qubits, ordered gate list, and the qubits
measured at the end (mirrors `QuantumCircuit(n, n)` plus the appended gates
and the final `measure`). -/
structure Circuit where
  numQubits : Nat
  gates : List Gate
  measured : List Nat

/-- State-vector semantics of qiskit's `ry` gate on qubit `q`: the 2x2 matrix
with rows (cos (a/2), -sin (a/2)) and (sin (a/2), cos (a/2)) acts on each
amplitude pair that differs exactly in bit `q` (qubit 0 is the
least-significant bit of the basis index, qiskit's convention). -/
def applyRy (q : Nat) (a : ℝ) (st : Nat → ℝ) : Nat → ℝ := fun i =>
  if i.testBit q then
    Real.sin (a / 2) * st (i ^^^ 2 ^ q) + Real.cos (a / 2) * st i
  else
    Real.cos (a / 2) * st i - Real.sin (a / 2) * st (i ^^^ 2 ^ q)

/-- State-vector semantics of qiskit's `cx` gate: basis states whose
`control` bit is 1 have their `target` bit flipped (a permutation of
amplitudes). -/
def applyCx (control target : Nat) (st : Nat → ℝ) : Nat → ℝ := fun i =>
  if i.testBit control then st (i ^^^ 2 ^ target) else st i

/-- Apply one gate to a state vector. -/
def applyGate (st : Nat → ℝ) : Gate → (Nat → ℝ)
  | Gate.ry q a => applyRy q a st
  | Gate.cx c t => applyCx c t st

/-- Evolve a state through a gate list, first gate first. -/
def evolve (gs : List Gate) (st : Nat → ℝ) : Nat → ℝ :=
  gs.foldl applyGate st

/-- The all-zero initial state |0...0> every qiskit circuit starts from. -/
def initState : Nat → ℝ := fun i => if i = 0 then 1 else 0

/-- Body of one iteration of the `is_ship` loop in `build_zeno_circuit`:
`qc.ry(theta, 0); qc.cx(0, 1); qc.ry(-theta, 0)`. -/
def shipBody (theta : ℝ) : List Gate :=
  [Gate.ry 0 theta, Gate.cx 0 1, Gate.ry 0 (-theta)]

/-- Body of one iteration of the dud loop in `build_zeno_circuit`:
`qc.ry(theta, 0); qc.ry(-theta, 0)`. -/
def dudBody (theta : ℝ) : List Gate :=
  [Gate.ry 0 theta, Gate.ry 0 (-theta)]

/-- The gate list produced by `for _ in range(k)` appending `body` each
iteration. -/
def loopGates (body : List Gate) : Nat → List Gate
  | 0 => []
  | k + 1 => loopGates body k ++ body

/-- Embedding of `build_zeno_circuit(n_peeks, is_ship)` from
src/Battleship.py on the arguments where the call returns:
`theta = np.pi / (2 * n_peeks)`, and Python's `range(n_peeks)` iterates
`max n_peeks 0` times, which is `Int.toNat`, so every `n_peeks <= 0`
appends no gates.  At `n_peeks = 0` the source does not return: computing
`theta` raises ZeroDivisionError (`np.pi` is a Python float, and a float
divided by integer zero raises), so this total function's value at 0
stands for no source behavior; `build_zeno_result` below carries that
error path. -/
def build_zeno_circuit (n_peeks : ℤ) (is_ship : Bool) : Circuit :=
  let theta := Real.pi / (2 * (n_peeks : ℝ))
  if is_ship then
    { numQubits := 2
      gates := loopGates (shipBody theta) n_peeks.toNat
      measured := [0, 1] }
  else
    { numQubits := 1
      gates := loopGates (dudBody theta) n_peeks.toNat
      measured := [0] }

/-- The result of the call `build_zeno_circuit(n_peeks, is_ship)`
including its error path: at `n_peeks = 0` the very first statement
`theta = np.pi / (2 * n_peeks)` divides the Python float `np.pi` by
integer zero and raises ZeroDivisionError before any gate is appended
(modelled as `none`); every other call returns the built circuit. -/
def build_zeno_result (n_peeks : ℤ) (is_ship : Bool) : Option Circuit :=
  if n_peeks = 0 then none else some (build_zeno_circuit n_peeks is_ship)

/-- The qiskit `get_counts` key for basis index `i` of a `w`-qubit register:
the bit of the highest qubit first, qubit 0 last. -/
def outcomeString (w i : Nat) : String :=
  String.mk (((List.range w).reverse).map (fun q => if i.testBit q then '1' else '0'))

/-- The pre-measurement state of a circuit evolved from the all-zero
initial state. -/
def finalState (c : Circuit) : Nat → ℝ :=
  evolve c.gates initState

/-- Born-rule probability the measurement at the end of `c` reports the
counts key `key`. -/
def finalDistribution (c : Circuit) (key : String) : ℝ :=
  ∑ i ∈ Finset.range (2 ^ c.numQubits),
    if outcomeString c.numQubits i = key then (finalState c i) ^ 2 else 0

/-- Sum of squared amplitude magnitudes over an `n`-qubit register. -/
def stateNormSq (n : Nat) (st : Nat → ℝ) : ℝ :=
  ∑ i ∈ Finset.range (2 ^ n), (st i) ^ 2

/-- The state the occupied circuit reaches after an odd number of loop
iterations with per-iteration angle `theta` (derived below; after an even
number it is back at `initState`). -/
def shipOdd (theta : ℝ) : Nat → ℝ := fun i =>
  if i = 0 then Real.cos (theta / 2) ^ 2
  else if i = 1 then -(Real.sin (theta / 2) * Real.cos (theta / 2))
  else if i = 2 then Real.sin (theta / 2) ^ 2
  else if i = 3 then Real.sin (theta / 2) * Real.cos (theta / 2)
  else 0

/-- Matrix of the parameterized rotation gate (qiskit's `ry`, modelled from
the spec's Gate Library): rows (cos (a/2), -sin (a/2)) and
(sin (a/2), cos (a/2)). -/
def rotation_matrix (a : ℝ) : Matrix (Fin 2) (Fin 2) ℝ :=
  !![Real.cos (a / 2), -Real.sin (a / 2); Real.sin (a / 2), Real.cos (a / 2)]

/-- Python's `int(ch)` on a one-character string: its decimal value for a
digit, an error (modelled as `none`) otherwise. -/
def charDigitVal (ch : Char) : Option ℤ :=
  if ch.isDigit then some ((ch.toNat : ℤ) - 48) else none

/-- The `try` block of `parse_input` from src/Battleship.py:
`col = ord(user_in[0].upper()) - ord('A')`, `row = int(user_in[1]) - 1`,
then the range check that raises `IndexError` when out of bounds.  Every
fallible step (indexing an absent character, `int` on a non-digit, the
explicit raise) is modelled as `none`. -/
def parse_input_body (s : String) : Option (ℤ × ℤ) :=
  match s.toList[0]?, s.toList[1]? with
  | some c0, some c1 =>
    match charDigitVal c1 with
    | some d =>
      let col : ℤ := (c0.toUpper.toNat : ℤ) - 65
      let row : ℤ := d - 1
      if 0 ≤ row ∧ row < 4 ∧ 0 ≤ col ∧ col < 4 then some (row, col) else none
    | none => none
  | _, _ => none

/-- Embedding of `parse_input`: the bare `except` turns every failure of the
body into the `(None, None)` return value. -/
def parse_input (s : String) : Option ℤ × Option ℤ :=
  match parse_input_body s with
  | some rc => (some rc.1, some rc.2)
  | none => (none, none)

/-! ### Basic facts about evolution and bit indices -/

lemma evolve_nil (st : Nat → ℝ) : evolve [] st = st := rfl

lemma evolve_append (g1 g2 : List Gate) (st : Nat → ℝ) :
    evolve (g1 ++ g2) st = evolve g2 (evolve g1 st) := by
  simp [evolve, List.foldl_append]

lemma xor_ge_four {i k : Nat} (hk : k < 4) (hi : 4 ≤ i) : 4 ≤ i ^^^ k := by
  by_contra hcon
  push_neg at hcon
  have h1 : i ^^^ k < 2 ^ 2 := by omega
  have h2 : k < 2 ^ 2 := by omega
  have h3 : (i ^^^ k) ^^^ k < 2 ^ 2 := Nat.xor_lt_two_pow h1 h2
  have h4 : (i ^^^ k) ^^^ k = i := by
    rw [Nat.xor_assoc, Nat.xor_self, Nat.xor_zero]
  omega

lemma testBit_xor_one (i : Nat) : (i ^^^ 1).testBit 0 = !(i.testBit 0) := by
  rw [Nat.testBit_xor, show Nat.testBit 1 0 = true from rfl, Bool.xor_true]

lemma testBit_xor_two (i : Nat) : (i ^^^ 2).testBit 0 = i.testBit 0 := by
  rw [Nat.testBit_xor, show Nat.testBit 2 0 = false from rfl, Bool.xor_false]

lemma testBit_xor_three (i : Nat) : (i ^^^ 3).testBit 0 = !(i.testBit 0) := by
  rw [Nat.testBit_xor, show Nat.testBit 3 0 = true from rfl, Bool.xor_true]

lemma xor_one_two (i : Nat) : (i ^^^ 1) ^^^ 2 = i ^^^ 3 := by
  rw [Nat.xor_assoc, show (1 : Nat) ^^^ 2 = 3 from rfl]

lemma xor_one_one (i : Nat) : (i ^^^ 1) ^^^ 1 = i := by
  rw [Nat.xor_assoc, Nat.xor_self, Nat.xor_zero]

lemma xor_two_one (i : Nat) : (i ^^^ 2) ^^^ 1 = i ^^^ 3 := by
  rw [Nat.xor_assoc, show (2 : Nat) ^^^ 1 = 3 from rfl]

lemma xor_three_one (i : Nat) : (i ^^^ 3) ^^^ 1 = i ^^^ 2 := by
  rw [Nat.xor_assoc, show (3 : Nat) ^^^ 1 = 2 from rfl]

lemma initState_eq_zero {i : Nat} (h : i ≠ 0) : initState i = 0 := by
  simp [initState, h]

lemma shipOdd_eq_zero (theta : ℝ) {i : Nat} (h : 4 ≤ i) : shipOdd theta i = 0 := by
  have h0 : i ≠ 0 := by omega
  have h1 : i ≠ 1 := by omega
  have h2 : i ≠ 2 := by omega
  have h3 : i ≠ 3 := by omega
  simp [shipOdd, h0, h1, h2, h3]

/-! ### One iteration of the occupied ("ship") loop -/

lemma shipStep_apply (theta : ℝ) (st : Nat → ℝ) (i : Nat) :
    evolve (shipBody theta) st i =
      if i.testBit 0 then
        Real.sin (theta / 2) ^ 2 * st i
          - Real.sin (theta / 2) * Real.cos (theta / 2) * st (i ^^^ 1)
          + Real.cos (theta / 2) ^ 2 * st (i ^^^ 2)
          + Real.sin (theta / 2) * Real.cos (theta / 2) * st (i ^^^ 3)
      else
        Real.cos (theta / 2) ^ 2 * st i
          - Real.sin (theta / 2) * Real.cos (theta / 2) * st (i ^^^ 1)
          + Real.sin (theta / 2) ^ 2 * st (i ^^^ 2)
          + Real.sin (theta / 2) * Real.cos (theta / 2) * st (i ^^^ 3) := by
  have hs : Real.sin (-theta / 2) = -Real.sin (theta / 2) := by
    rw [neg_div, Real.sin_neg]
  have hc : Real.cos (-theta / 2) = Real.cos (theta / 2) := by
    rw [neg_div, Real.cos_neg]
  simp only [evolve, shipBody, List.foldl_cons, List.foldl_nil, applyGate,
    applyRy, applyCx, pow_zero, pow_one, hs, hc]
  cases hb : i.testBit 0 with
  | false =>
    simp only [hb, testBit_xor_one, testBit_xor_two, testBit_xor_three,
      xor_one_two, xor_one_one, xor_two_one, xor_three_one,
      Bool.not_false, Bool.not_true, Bool.false_eq_true, if_false, if_true,
      Bool.true_eq_false, ite_true, ite_false]
    ring
  | true =>
    simp only [hb, testBit_xor_one, testBit_xor_two, testBit_xor_three,
      xor_one_two, xor_one_one, xor_two_one, xor_three_one,
      Bool.not_false, Bool.not_true, Bool.false_eq_true, if_false, if_true,
      Bool.true_eq_false, ite_true, ite_false]
    ring

lemma shipStep_init (theta : ℝ) :
    evolve (shipBody theta) initState = shipOdd theta := by
  funext i
  rw [shipStep_apply]
  rcases Nat.lt_or_ge i 4 with hi | hi
  · interval_cases i <;>
      simp [initState, shipOdd,
        show Nat.testBit 0 0 = false from rfl, show Nat.testBit 1 0 = true from rfl,
        show Nat.testBit 2 0 = false from rfl, show Nat.testBit 3 0 = true from rfl]
  · have k1 : 4 ≤ i ^^^ 1 := xor_ge_four (by norm_num) hi
    have k2 : 4 ≤ i ^^^ 2 := xor_ge_four (by norm_num) hi
    have k3 : 4 ≤ i ^^^ 3 := xor_ge_four (by norm_num) hi
    rw [shipOdd_eq_zero theta hi,
      initState_eq_zero (show i ≠ 0 by omega),
      initState_eq_zero (show i ^^^ 1 ≠ 0 by omega),
      initState_eq_zero (show i ^^^ 2 ≠ 0 by omega),
      initState_eq_zero (show i ^^^ 3 ≠ 0 by omega)]
    cases i.testBit 0 <;> simp

lemma shipStep_odd (theta : ℝ) :
    evolve (shipBody theta) (shipOdd theta) = initState := by
  funext i
  rw [shipStep_apply]
  rcases Nat.lt_or_ge i 4 with hi | hi
  · interval_cases i <;>
      simp only [shipOdd, initState,
        show Nat.testBit 0 0 = false from rfl, show Nat.testBit 1 0 = true from rfl,
        show Nat.testBit 2 0 = false from rfl, show Nat.testBit 3 0 = true from rfl,
        show (0 : Nat) ^^^ 1 = 1 from rfl, show (0 : Nat) ^^^ 2 = 2 from rfl,
        show (0 : Nat) ^^^ 3 = 3 from rfl, show (1 : Nat) ^^^ 1 = 0 from rfl,
        show (1 : Nat) ^^^ 2 = 3 from rfl, show (1 : Nat) ^^^ 3 = 2 from rfl,
        show (2 : Nat) ^^^ 1 = 3 from rfl, show (2 : Nat) ^^^ 2 = 0 from rfl,
        show (2 : Nat) ^^^ 3 = 1 from rfl, show (3 : Nat) ^^^ 1 = 2 from rfl,
        show (3 : Nat) ^^^ 2 = 1 from rfl, show (3 : Nat) ^^^ 3 = 0 from rfl,
        if_true, if_false, ite_true, ite_false, Bool.false_eq_true] <;>
      norm_num <;>
      first
        | ring1
        | linear_combination (Real.sin_sq_add_cos_sq (theta / 2)) *
            (Real.sin (theta / 2) ^ 2 + Real.cos (theta / 2) ^ 2 + 1)
  · have k1 : 4 ≤ i ^^^ 1 := xor_ge_four (by norm_num) hi
    have k2 : 4 ≤ i ^^^ 2 := xor_ge_four (by norm_num) hi
    have k3 : 4 ≤ i ^^^ 3 := xor_ge_four (by norm_num) hi
    rw [shipOdd_eq_zero theta hi, shipOdd_eq_zero theta k1,
      shipOdd_eq_zero theta k2, shipOdd_eq_zero theta k3,
      initState_eq_zero (show i ≠ 0 by omega)]
    cases i.testBit 0 <;> simp

lemma evolve_ship_loop (theta : ℝ) (n : Nat) :
    evolve (loopGates (shipBody theta) n) initState =
      if n % 2 = 0 then initState else shipOdd theta := by
  induction n with
  | zero => simp [loopGates, evolve_nil]
  | succ k ih =>
    rw [loopGates, evolve_append, ih]
    by_cases hk : k % 2 = 0
    · rw [if_pos hk, if_neg (by omega), shipStep_init]
    · rw [if_neg hk, if_pos (by omega), shipStep_odd]

/-! ### The unoccupied ("dud") loop is the identity -/

lemma dudStep_apply (theta : ℝ) (st : Nat → ℝ) :
    evolve (dudBody theta) st = st := by
  funext i
  have hs : Real.sin (-theta / 2) = -Real.sin (theta / 2) := by
    rw [neg_div, Real.sin_neg]
  have hc : Real.cos (-theta / 2) = Real.cos (theta / 2) := by
    rw [neg_div, Real.cos_neg]
  simp only [evolve, dudBody, List.foldl_cons, List.foldl_nil, applyGate,
    applyRy, pow_zero, hs, hc]
  cases hb : i.testBit 0 with
  | false =>
    simp only [hb, testBit_xor_one, xor_one_one, Bool.not_false,
      Bool.false_eq_true, if_false, if_true, ite_true, ite_false]
    linear_combination (Real.sin_sq_add_cos_sq (theta / 2)) * st i
  | true =>
    simp only [hb, testBit_xor_one, xor_one_one, Bool.not_true,
      Bool.false_eq_true, if_false, if_true, ite_true, ite_false]
    linear_combination (Real.sin_sq_add_cos_sq (theta / 2)) * st i

lemma evolve_dud_loop (theta : ℝ) (n : Nat) (st : Nat → ℝ) :
    evolve (loopGates (dudBody theta) n) st = st := by
  induction n with
  | zero => rfl
  | succ k ih => rw [loopGates, evolve_append, ih, dudStep_apply]

/-! ### Unfolding the circuit builder -/

lemma build_ship_eq (n : ℕ) :
    build_zeno_circuit (n : ℤ) true =
      { numQubits := 2
        gates := loopGates (shipBody (Real.pi / (2 * (n : ℝ)))) n
        measured := [0, 1] } := by
  simp [build_zeno_circuit]

lemma build_dud_eq (n : ℕ) :
    build_zeno_circuit (n : ℤ) false =
      { numQubits := 1
        gates := loopGates (dudBody (Real.pi / (2 * (n : ℝ)))) n
        measured := [0] } := by
  simp [build_zeno_circuit]

lemma build_nonpos (n : ℤ) (hn : n ≤ 0) (occ : Bool) :
    build_zeno_circuit n occ =
      { numQubits := if occ then 2 else 1
        gates := []
        measured := if occ then [0, 1] else [0] } := by
  have h0 : n.toNat = 0 := Int.toNat_of_nonpos hn
  cases occ <;> simp [build_zeno_circuit, h0, loopGates]

/-! ### Evaluating the outcome distribution -/

lemma sum_range_four (f : Nat → ℝ) :
    ∑ i ∈ Finset.range 4, f i = f 0 + f 1 + f 2 + f 3 := by
  rw [Finset.sum_range_succ, Finset.sum_range_succ, Finset.sum_range_succ,
    Finset.sum_range_succ, Finset.sum_range_zero]
  ring

lemma sum_range_two (f : Nat → ℝ) :
    ∑ i ∈ Finset.range 2, f i = f 0 + f 1 := by
  rw [Finset.sum_range_succ, Finset.sum_range_succ, Finset.sum_range_zero]
  ring

lemma finalDistribution_two_00 (c : Circuit) (h : c.numQubits = 2) :
    finalDistribution c "00" = finalState c 0 ^ 2 := by
  simp only [finalDistribution, h, show (2 : ℕ) ^ 2 = 4 from rfl, sum_range_four]
  rw [show outcomeString 2 0 = "00" from rfl, show outcomeString 2 1 = "01" from rfl,
    show outcomeString 2 2 = "10" from rfl, show outcomeString 2 3 = "11" from rfl]
  rw [if_pos rfl, if_neg (by decide), if_neg (by decide), if_neg (by decide)]
  ring

lemma finalDistribution_two_01 (c : Circuit) (h : c.numQubits = 2) :
    finalDistribution c "01" = finalState c 1 ^ 2 := by
  simp only [finalDistribution, h, show (2 : ℕ) ^ 2 = 4 from rfl, sum_range_four]
  rw [show outcomeString 2 0 = "00" from rfl, show outcomeString 2 1 = "01" from rfl,
    show outcomeString 2 2 = "10" from rfl, show outcomeString 2 3 = "11" from rfl]
  rw [if_neg (by decide), if_pos rfl, if_neg (by decide), if_neg (by decide)]
  ring

lemma finalDistribution_two_10 (c : Circuit) (h : c.numQubits = 2) :
    finalDistribution c "10" = finalState c 2 ^ 2 := by
  simp only [finalDistribution, h, show (2 : ℕ) ^ 2 = 4 from rfl, sum_range_four]
  rw [show outcomeString 2 0 = "00" from rfl, show outcomeString 2 1 = "01" from rfl,
    show outcomeString 2 2 = "10" from rfl, show outcomeString 2 3 = "11" from rfl]
  rw [if_neg (by decide), if_neg (by decide), if_pos rfl, if_neg (by decide)]
  ring

lemma finalDistribution_two_11 (c : Circuit) (h : c.numQubits = 2) :
    finalDistribution c "11" = finalState c 3 ^ 2 := by
  simp only [finalDistribution, h, show (2 : ℕ) ^ 2 = 4 from rfl, sum_range_four]
  rw [show outcomeString 2 0 = "00" from rfl, show outcomeString 2 1 = "01" from rfl,
    show outcomeString 2 2 = "10" from rfl, show outcomeString 2 3 = "11" from rfl]
  rw [if_neg (by decide), if_neg (by decide), if_neg (by decide), if_pos rfl]
  ring

lemma finalDistribution_one_0 (c : Circuit) (h : c.numQubits = 1) :
    finalDistribution c "0" = finalState c 0 ^ 2 := by
  simp only [finalDistribution, h, show (2 : ℕ) ^ 1 = 2 from rfl, sum_range_two]
  rw [show outcomeString 1 0 = "0" from rfl, show outcomeString 1 1 = "1" from rfl]
  rw [if_pos rfl, if_neg (by decide)]
  ring

lemma finalDistribution_one_1 (c : Circuit) (h : c.numQubits = 1) :
    finalDistribution c "1" = finalState c 1 ^ 2 := by
  simp only [finalDistribution, h, show (2 : ℕ) ^ 1 = 2 from rfl, sum_range_two]
  rw [show outcomeString 1 0 = "0" from rfl, show outcomeString 1 1 = "1" from rfl]
  rw [if_neg (by decide), if_pos rfl]
  ring

/-! ### Normalization is preserved by every gate the circuits use -/

lemma mem_loopGates {body : List Gate} {n : Nat} {g : Gate}
    (hg : g ∈ loopGates body n) : g ∈ body := by
  induction n with
  | zero => simp [loopGates] at hg
  | succ k ih =>
    rw [loopGates] at hg
    rcases List.mem_append.1 hg with h | h
    · exact ih h
    · exact h

lemma evolve_cons (g : Gate) (gs : List Gate) (st : Nat → ℝ) :
    evolve (g :: gs) st = evolve gs (applyGate st g) := rfl

lemma stateNormSq_two_ry (a : ℝ) (st : Nat → ℝ) :
    stateNormSq 2 (applyRy 0 a st) = stateNormSq 2 st := by
  simp only [stateNormSq, show (2 : ℕ) ^ 2 = 4 from rfl, sum_range_four]
  simp only [applyRy, pow_zero,
    show Nat.testBit 0 0 = false from rfl, show Nat.testBit 1 0 = true from rfl,
    show Nat.testBit 2 0 = false from rfl, show Nat.testBit 3 0 = true from rfl,
    show (0 : Nat) ^^^ 1 = 1 from rfl, show (1 : Nat) ^^^ 1 = 0 from rfl,
    show (2 : Nat) ^^^ 1 = 3 from rfl, show (3 : Nat) ^^^ 1 = 2 from rfl,
    if_true, if_false, ite_true, ite_false, Bool.false_eq_true]
  linear_combination (Real.sin_sq_add_cos_sq (a / 2)) *
    (st 0 ^ 2 + st 1 ^ 2 + st 2 ^ 2 + st 3 ^ 2)

lemma stateNormSq_two_cx (st : Nat → ℝ) :
    stateNormSq 2 (applyCx 0 1 st) = stateNormSq 2 st := by
  simp only [stateNormSq, show (2 : ℕ) ^ 2 = 4 from rfl, sum_range_four]
  simp only [applyCx, pow_one,
    show Nat.testBit 0 0 = false from rfl, show Nat.testBit 1 0 = true from rfl,
    show Nat.testBit 2 0 = false from rfl, show Nat.testBit 3 0 = true from rfl,
    show (1 : Nat) ^^^ 2 = 3 from rfl, show (3 : Nat) ^^^ 2 = 1 from rfl,
    if_true, if_false, ite_true, ite_false, Bool.false_eq_true]
  ring

lemma stateNormSq_one_ry (a : ℝ) (st : Nat → ℝ) :
    stateNormSq 1 (applyRy 0 a st) = stateNormSq 1 st := by
  simp only [stateNormSq, show (2 : ℕ) ^ 1 = 2 from rfl, sum_range_two]
  simp only [applyRy, pow_zero,
    show Nat.testBit 0 0 = false from rfl, show Nat.testBit 1 0 = true from rfl,
    show (0 : Nat) ^^^ 1 = 1 from rfl, show (1 : Nat) ^^^ 1 = 0 from rfl,
    if_true, if_false, ite_true, ite_false, Bool.false_eq_true]
  linear_combination (Real.sin_sq_add_cos_sq (a / 2)) * (st 0 ^ 2 + st 1 ^ 2)

lemma stateNormSq_evolve (m : Nat) (gs : List Gate) :
    ∀ st : Nat → ℝ,
      (∀ g ∈ gs, ∀ u : Nat → ℝ, stateNormSq m (applyGate u g) = stateNormSq m u) →
      stateNormSq m (evolve gs st) = stateNormSq m st := by
  induction gs with
  | nil => intro st h; rfl
  | cons g rest ih =>
    intro st h
    rw [evolve_cons, ih (applyGate st g) (fun x hx u => h x (List.mem_cons_of_mem g hx) u),
      h g (List.mem_cons_self g rest) st]

lemma stateNormSq_init (m : Nat) : stateNormSq m initState = 1 := by
  simp only [stateNormSq]
  rw [Finset.sum_eq_single_of_mem 0 (Finset.mem_range.2 (Nat.two_pow_pos m))]
  · simp [initState]
  · intro b _ hb
    simp [initState, hb]

/-! ### Final states of the two built circuits -/

lemma finalState_ship (n : ℕ) :
    finalState (build_zeno_circuit (n : ℤ) true) =
      if n % 2 = 0 then initState else shipOdd (Real.pi / (2 * (n : ℝ))) := by
  rw [finalState, build_ship_eq]
  exact evolve_ship_loop _ n

lemma finalState_dud (n : ℕ) :
    finalState (build_zeno_circuit (n : ℤ) false) = initState := by
  rw [finalState, build_dud_eq]
  exact evolve_dud_loop _ n initState

lemma flatten_replicate_comm {α : Type} (b : List α) (k : ℕ) :
    (List.replicate k b).flatten ++ b = b ++ (List.replicate k b).flatten := by
  induction k with
  | zero => simp
  | succ m ih =>
    rw [List.replicate_succ, List.flatten_cons, List.append_assoc, ih]

lemma loopGates_replicate (body : List Gate) (n : ℕ) :
    loopGates body n = (List.replicate n body).flatten := by
  induction n with
  | zero => rfl
  | succ k ih =>
    rw [loopGates, ih, flatten_replicate_comm, List.replicate_succ, List.flatten_cons]

lemma cos_pi_div_four_sq : Real.cos (Real.pi / 4) ^ 2 = 1 / 2 := by
  rw [Real.cos_pi_div_four, div_pow, Real.sq_sqrt] <;> norm_num

lemma sin_pi_div_four_sq : Real.sin (Real.pi / 4) ^ 2 = 1 / 2 := by
  rw [Real.sin_pi_div_four, div_pow, Real.sq_sqrt] <;> norm_num

/-- The full outcome distribution of the occupied circuit: the loop has
period two on the initial state, so even repetition counts give back the
all-zero state exactly, and odd counts give the `shipOdd` amplitudes with
half-angle `pi / (4 n)`. -/
lemma finalDistribution_ship_values (n : ℕ) :
    finalDistribution (build_zeno_circuit (n : ℤ) true) "00"
        = (if n % 2 = 0 then 1 else Real.cos (Real.pi / (4 * (n : ℝ))) ^ 4) ∧
    finalDistribution (build_zeno_circuit (n : ℤ) true) "01"
        = (if n % 2 = 0 then 0 else
            Real.sin (Real.pi / (4 * (n : ℝ))) ^ 2 * Real.cos (Real.pi / (4 * (n : ℝ))) ^ 2) ∧
    finalDistribution (build_zeno_circuit (n : ℤ) true) "10"
        = (if n % 2 = 0 then 0 else Real.sin (Real.pi / (4 * (n : ℝ))) ^ 4) ∧
    finalDistribution (build_zeno_circuit (n : ℤ) true) "11"
        = (if n % 2 = 0 then 0 else
            Real.sin (Real.pi / (4 * (n : ℝ))) ^ 2 * Real.cos (Real.pi / (4 * (n : ℝ))) ^ 2) := by
  have hq : (build_zeno_circuit (n : ℤ) true).numQubits = 2 := by rw [build_ship_eq]
  have hfs := finalState_ship n
  have hangle : Real.pi / (2 * (n : ℝ)) / 2 = Real.pi / (4 * (n : ℝ)) := by
    rw [div_div, show (2 * (n : ℝ)) * 2 = 4 * (n : ℝ) by ring]
  refine ⟨?_, ?_, ?_, ?_⟩
  · rw [finalDistribution_two_00 _ hq, hfs]
    by_cases h2 : n % 2 = 0
    · rw [if_pos h2, if_pos h2]
      simp [initState]
    · rw [if_neg h2, if_neg h2]
      simp only [shipOdd, hangle]
      norm_num
      all_goals ring1
  · rw [finalDistribution_two_01 _ hq, hfs]
    by_cases h2 : n % 2 = 0
    · rw [if_pos h2, if_pos h2]
      simp [initState]
    · rw [if_neg h2, if_neg h2]
      simp only [shipOdd, hangle]
      norm_num
      all_goals ring1
  · rw [finalDistribution_two_10 _ hq, hfs]
    by_cases h2 : n % 2 = 0
    · rw [if_pos h2, if_pos h2]
      simp [initState]
    · rw [if_neg h2, if_neg h2]
      simp only [shipOdd, hangle]
      norm_num
      all_goals ring1
  · rw [finalDistribution_two_11 _ hq, hfs]
    by_cases h2 : n % 2 = 0
    · rw [if_pos h2, if_pos h2]
      simp [initState]
    · rw [if_neg h2, if_neg h2]
      simp only [shipOdd, hangle]
      norm_num
      all_goals ring1

lemma parse_input_body_range {s : String} {r c : ℤ}
    (h : parse_input_body s = some (r, c)) : 0 ≤ r ∧ r < 4 ∧ 0 ≤ c ∧ c < 4 := by
  unfold parse_input_body at h
  rcases h0 : s.toList[0]? with _ | c0 <;> rw [h0] at h
  · simp at h
  rcases h1 : s.toList[1]? with _ | c1 <;> rw [h1] at h
  · simp at h
  dsimp only at h
  rcases h2 : charDigitVal c1 with _ | d <;> rw [h2] at h
  · simp at h
  dsimp only at h
  split_ifs at h with hcond
  · simp only [Option.some.injEq, Prod.mk.injEq] at h
    obtain ⟨hr, hc⟩ := h
    subst hr
    subst hc
    exact hcond

/-! ### Claim theorems -/

/-- C1 (amended): the probability of the counts key "10" (target qubit 1,
probe qubit 0) for the occupied circuit is not exactly 0 for every
repetition count; it is 0 exactly when the repetition count is even, and
equals sin (pi / (4 n)) ^ 4 > 0 when n is odd (in particular 1/4 at
n = 1). -/
theorem claim_C1 (n : ℕ) (hn : 1 ≤ n) :
    finalDistribution (build_zeno_circuit (n : ℤ) true) "10" =
      if n % 2 = 0 then 0 else Real.sin (Real.pi / (4 * (n : ℝ))) ^ 4 :=
  (finalDistribution_ship_values n).2.2.1

/-- C1 (counterexample): at repetitions = 1 the occupied circuit gives the
outcome "10" probability 1/4, not 0, refuting the claimed exact-zero
invariant. -/
theorem claim_C1_counterexample :
    finalDistribution (build_zeno_circuit 1 true) "10" ≠ 0 := by
  have h := (finalDistribution_ship_values 1).2.2.1
  norm_num at h
  have hsq : (Real.sqrt 2 / 2 : ℝ) ^ 2 = 1 / 2 := by
    rw [div_pow, Real.sq_sqrt] <;> norm_num
  rw [h, show (4 : ℕ) = 2 * 2 from rfl, pow_mul, hsq]
  norm_num

/-- C1 (witness): the amended claim evaluated at the even repetition count
2, where the "10" probability is exactly 0. -/
theorem claim_C1_witness :
    1 ≤ 2 ∧ finalDistribution (build_zeno_circuit 2 true) "10" = 0 := by
  refine ⟨by norm_num, ?_⟩
  have h := claim_C1 2 (by norm_num)
  norm_num at h
  exact h

/-- C2: for the occupied circuit at repetitions = 1 the final distribution
is uniform, each of the four outcomes having probability 0.25 within
1e-9. -/
theorem claim_C2 :
    |finalDistribution (build_zeno_circuit 1 true) "00" - 0.25| ≤ 1e-9 ∧
    |finalDistribution (build_zeno_circuit 1 true) "01" - 0.25| ≤ 1e-9 ∧
    |finalDistribution (build_zeno_circuit 1 true) "10" - 0.25| ≤ 1e-9 ∧
    |finalDistribution (build_zeno_circuit 1 true) "11" - 0.25| ≤ 1e-9 := by
  have h := finalDistribution_ship_values 1
  norm_num at h
  obtain ⟨h00, h01, h10, h11⟩ := h
  have hsq : (Real.sqrt 2 / 2 : ℝ) ^ 2 = 1 / 2 := by
    rw [div_pow, Real.sq_sqrt] <;> norm_num
  have h4 : (Real.sqrt 2 / 2 : ℝ) ^ 4 = 1 / 4 := by
    rw [show (4 : ℕ) = 2 * 2 from rfl, pow_mul, hsq]
    norm_num
  refine ⟨?_, ?_, ?_, ?_⟩
  · rw [h00, h4]
    norm_num
  · rw [h01, hsq]
    norm_num
  · rw [h10, h4]
    norm_num
  · rw [h11, hsq]
    norm_num

/-- C3: for every repetitions >= 1 the unoccupied circuit leaves the
register exactly in the all-zero basis state, so outcome "0" has
probability exactly 1 and outcome "1" probability exactly 0. -/
theorem claim_C3 (n : ℕ) (hn : 1 ≤ n) :
    finalState (build_zeno_circuit (n : ℤ) false) = initState ∧
    finalDistribution (build_zeno_circuit (n : ℤ) false) "0" = 1 ∧
    finalDistribution (build_zeno_circuit (n : ℤ) false) "1" = 0 := by
  have hq : (build_zeno_circuit (n : ℤ) false).numQubits = 1 := by rw [build_dud_eq]
  have hfs := finalState_dud n
  refine ⟨hfs, ?_, ?_⟩
  · rw [finalDistribution_one_0 _ hq, hfs]
    simp [initState]
  · rw [finalDistribution_one_1 _ hq, hfs]
    simp [initState]

/-- C3 (witness): the unoccupied circuit at repetitions = 1 measures "0"
with probability 1. -/
theorem claim_C3_witness :
    1 ≤ 1 ∧ finalDistribution (build_zeno_circuit 1 false) "0" = 1 := by
  refine ⟨le_refl 1, ?_⟩
  have h := (claim_C3 1 (le_refl 1)).2.1
  norm_num at h
  exact h

/-- C4: for every repetitions >= 1, both circuit variants, and every
prefix of the gate list (so before the first gate, between any two gates,
and after the last), the evolved state is normalized within 1e-9. -/
theorem claim_C4 (n : ℕ) (hn : 1 ≤ n) (occ : Bool) (k : ℕ) :
    |stateNormSq (build_zeno_circuit (n : ℤ) occ).numQubits
        (evolve (((build_zeno_circuit (n : ℤ) occ).gates).take k) initState) - 1| ≤ 1e-9 := by
  have hexact : stateNormSq (build_zeno_circuit (n : ℤ) occ).numQubits
      (evolve (((build_zeno_circuit (n : ℤ) occ).gates).take k) initState) = 1 := by
    cases occ with
    | true =>
      rw [build_ship_eq]
      refine Eq.trans (stateNormSq_evolve 2 _ initState ?_) (stateNormSq_init 2)
      intro g hg u
      have hmem : g ∈ shipBody (Real.pi / (2 * (n : ℝ))) :=
        mem_loopGates (List.take_subset k _ hg)
      simp only [shipBody, List.mem_cons, List.not_mem_nil, or_false] at hmem
      rcases hmem with h | h | h <;> subst h
      · exact stateNormSq_two_ry _ u
      · exact stateNormSq_two_cx u
      · exact stateNormSq_two_ry _ u
    | false =>
      rw [build_dud_eq]
      refine Eq.trans (stateNormSq_evolve 1 _ initState ?_) (stateNormSq_init 1)
      intro g hg u
      have hmem : g ∈ dudBody (Real.pi / (2 * (n : ℝ))) :=
        mem_loopGates (List.take_subset k _ hg)
      simp only [dudBody, List.mem_cons, List.not_mem_nil, or_false] at hmem
      rcases hmem with h | h <;> subst h
      · exact stateNormSq_one_ry _ u
      · exact stateNormSq_one_ry _ u
  rw [hexact]
  norm_num

/-- C4 (witness): the normalization bound evaluated at repetitions = 1,
the unoccupied circuit, and the empty prefix. -/
theorem claim_C4_witness :
    1 ≤ 1 ∧
    |stateNormSq (build_zeno_circuit 1 false).numQubits
        (evolve (((build_zeno_circuit 1 false).gates).take 0) initState) - 1| ≤ 1e-9 := by
  refine ⟨le_refl 1, ?_⟩
  have h := claim_C4 1 (le_refl 1) false 0
  norm_num at h
  convert h using 4
  norm_num

/-- C5: the occupied circuit is a 2-qubit circuit whose gate list is
exactly repetitions consecutive copies of the triple
[ry(angle, 0), cx(0, 1), ry(-angle, 0)] with angle = pi / (2 repetitions),
followed by measurement of both qubits. -/
theorem claim_C5 (n : ℕ) (hn : 1 ≤ n) :
    build_zeno_circuit (n : ℤ) true =
      { numQubits := 2
        gates := (List.replicate n
            [Gate.ry 0 (Real.pi / (2 * (n : ℝ))), Gate.cx 0 1,
              Gate.ry 0 (-(Real.pi / (2 * (n : ℝ))))]).flatten
        measured := [0, 1] } := by
  rw [build_ship_eq, loopGates_replicate]
  rfl

/-- C5 (witness): the gate-list shape evaluated at repetitions = 1. -/
theorem claim_C5_witness :
    1 ≤ 1 ∧
    build_zeno_circuit 1 true =
      { numQubits := 2
        gates := (List.replicate 1
            [Gate.ry 0 (Real.pi / 2), Gate.cx 0 1, Gate.ry 0 (-(Real.pi / 2))]).flatten
        measured := [0, 1] } := by
  refine ⟨le_refl 1, ?_⟩
  have h := claim_C5 1 (le_refl 1)
  simpa using h

/-- C6: as the repetition count grows, the occupied circuit's probability
of "00" tends to 1 and the total probability of the other three outcomes
tends to 0 (the quantum-Zeno suppression limit). -/
theorem claim_C6 :
    Filter.Tendsto (fun n : ℕ => finalDistribution (build_zeno_circuit (n : ℤ) true) "00")
      Filter.atTop (nhds 1) ∧
    Filter.Tendsto (fun n : ℕ =>
        finalDistribution (build_zeno_circuit (n : ℤ) true) "01" +
          finalDistribution (build_zeno_circuit (n : ℤ) true) "10" +
          finalDistribution (build_zeno_circuit (n : ℤ) true) "11")
      Filter.atTop (nhds 0) := by
  have hangle : Filter.Tendsto (fun n : ℕ => Real.pi / (4 * (n : ℝ)))
      Filter.atTop (nhds 0) := by
    have h := tendsto_const_div_atTop_nhds_zero_nat (Real.pi / 4)
    simpa [div_div] using h
  have hcos : Filter.Tendsto (fun n : ℕ => Real.cos (Real.pi / (4 * (n : ℝ))))
      Filter.atTop (nhds 1) := by
    have h := (Real.continuous_cos.tendsto 0).comp hangle
    simpa using h
  have hcos4 : Filter.Tendsto (fun n : ℕ => Real.cos (Real.pi / (4 * (n : ℝ))) ^ 4)
      Filter.atTop (nhds 1) := by
    have h := hcos.pow 4
    simpa using h
  have hbound : ∀ n : ℕ, 1 ≤ n →
      Real.cos (Real.pi / (4 * (n : ℝ))) ^ 4 ≤
          finalDistribution (build_zeno_circuit (n : ℤ) true) "00" ∧
        finalDistribution (build_zeno_circuit (n : ℤ) true) "00" ≤ 1 := by
    intro n hn
    have h := (finalDistribution_ship_values n).1
    have hc1 : Real.cos (Real.pi / (4 * (n : ℝ))) ^ 4 ≤ 1 := by
      have h1 := Real.cos_le_one (Real.pi / (4 * (n : ℝ)))
      have h2 := Real.neg_one_le_cos (Real.pi / (4 * (n : ℝ)))
      have h3 : Real.cos (Real.pi / (4 * (n : ℝ))) ^ 2 ≤ 1 := by nlinarith
      have h4 : Real.cos (Real.pi / (4 * (n : ℝ))) ^ 4 =
          (Real.cos (Real.pi / (4 * (n : ℝ))) ^ 2) ^ 2 := by ring
      rw [h4]
      exact pow_le_one₀ (sq_nonneg _) h3
    rw [h]
    by_cases h2 : n % 2 = 0
    · rw [if_pos h2]
      exact ⟨hc1, le_refl 1⟩
    · rw [if_neg h2]
      exact ⟨le_refl _, hc1⟩
  have h00 : Filter.Tendsto (fun n : ℕ =>
      finalDistribution (build_zeno_circuit (n : ℤ) true) "00") Filter.atTop (nhds 1) := by
    refine tendsto_of_tendsto_of_tendsto_of_le_of_le' hcos4 tendsto_const_nhds ?_ ?_
    · exact Filter.eventually_atTop.2 ⟨1, fun n hn => (hbound n hn).1⟩
    · exact Filter.eventually_atTop.2 ⟨1, fun n hn => (hbound n hn).2⟩
  refine ⟨h00, ?_⟩
  have hev : (fun n : ℕ =>
      finalDistribution (build_zeno_circuit (n : ℤ) true) "01" +
        finalDistribution (build_zeno_circuit (n : ℤ) true) "10" +
        finalDistribution (build_zeno_circuit (n : ℤ) true) "11") =ᶠ[Filter.atTop]
      (fun n : ℕ => 1 - finalDistribution (build_zeno_circuit (n : ℤ) true) "00") := by
    refine Filter.eventually_atTop.2 ⟨1, fun n hn => ?_⟩
    obtain ⟨h00v, h01v, h10v, h11v⟩ := finalDistribution_ship_values n
    dsimp only
    rw [h00v, h01v, h10v, h11v]
    by_cases h2 : n % 2 = 0
    · simp only [if_pos h2]
      norm_num
    · simp only [if_neg h2]
      linear_combination (Real.sin_sq_add_cos_sq (Real.pi / (4 * (n : ℝ)))) *
        (Real.sin (Real.pi / (4 * (n : ℝ))) ^ 2 + Real.cos (Real.pi / (4 * (n : ℝ))) ^ 2 + 1)
  have hlim : Filter.Tendsto (fun n : ℕ =>
      1 - finalDistribution (build_zeno_circuit (n : ℤ) true) "00") Filter.atTop (nhds 0) := by
    have h := h00.const_sub 1
    simpa using h
  exact Filter.Tendsto.congr' hev.symm hlim

/-- C7: the rotation matrix at angle a times the rotation matrix at angle
-a is exactly the 2x2 identity, for every real a. -/
theorem claim_C7 (a : ℝ) : rotation_matrix a * rotation_matrix (-a) = 1 := by
  have hs : Real.sin (-a / 2) = -Real.sin (a / 2) := by rw [neg_div, Real.sin_neg]
  have hc : Real.cos (-a / 2) = Real.cos (a / 2) := by rw [neg_div, Real.cos_neg]
  ext i j
  fin_cases i <;> fin_cases j <;>
    simp [rotation_matrix, Matrix.mul_apply, Fin.sum_univ_two, hs, hc, Matrix.one_apply] <;>
    first
      | ring1
      | linear_combination Real.sin_sq_add_cos_sq (a / 2)

/-- C8 (amended): the builder performs no repetition-count validation and
no InvalidRepetitionCount error exists anywhere in the code.  For every
negative repetitions it raises nothing and returns a circuit whose gate
list is empty (the per-iteration loop runs zero times); at repetitions = 0
the call does fail, but with a ZeroDivisionError raised while computing
theta, not an InvalidRepetitionCount. -/
theorem claim_C8 (n : ℤ) (hn : n < 1) (occ : Bool) :
    build_zeno_result n occ =
      if n = 0 then none
      else
        some
          { numQubits := if occ then 2 else 1
            gates := []
            measured := if occ then [0, 1] else [0] } := by
  by_cases h0 : n = 0
  · rw [build_zeno_result, if_pos h0, if_pos h0]
  · rw [build_zeno_result, if_neg h0, if_neg h0, build_nonpos n (by omega) occ]

/-- C8 (counterexample): at repetitions = -1 the call returns an ordinary
circuit (with an empty gate list) instead of failing with an
InvalidRepetitionCount error; no such error exists anywhere in the code. -/
theorem claim_C8_counterexample :
    build_zeno_result (-1) true =
      some { numQubits := 2, gates := [], measured := [0, 1] } := by
  rw [build_zeno_result, if_neg (by norm_num : ¬((-1 : ℤ) = 0)),
    build_nonpos (-1) (by norm_num) true]
  norm_num

/-- C8 (witness): the amended claim evaluated at repetitions = 0, where
the call fails (ZeroDivisionError, modelled as none). -/
theorem claim_C8_witness :
    (0 : ℤ) < 1 ∧ build_zeno_result 0 false = none := by
  refine ⟨by norm_num, ?_⟩
  have h := claim_C8 0 (by norm_num) false
  simpa using h

/-- C9: for every repetitions <= -1 and either variant the builder raises
no error and returns a circuit with no gates, and measuring it from the
all-zero initial state yields the all-zero bit string with probability
1. -/
theorem claim_C9 (n : ℤ) (hn : n ≤ -1) (occ : Bool) :
    (build_zeno_circuit n occ).gates = [] ∧
    finalDistribution (build_zeno_circuit n occ)
      (outcomeString (build_zeno_circuit n occ).numQubits 0) = 1 := by
  have hb := build_nonpos n (by omega) occ
  cases occ with
  | true =>
    norm_num at hb
    rw [hb]
    refine ⟨rfl, ?_⟩
    have hq : (Circuit.mk 2 [] [0, 1]).numQubits = 2 := rfl
    have hfs : finalState (Circuit.mk 2 ([] : List Gate) [0, 1]) = initState := rfl
    rw [show outcomeString (Circuit.mk 2 ([] : List Gate) [0, 1]).numQubits 0 = "00" from rfl,
      finalDistribution_two_00 _ hq, hfs]
    simp [initState]
  | false =>
    norm_num at hb
    rw [hb]
    refine ⟨rfl, ?_⟩
    have hq : (Circuit.mk 1 [] [0]).numQubits = 1 := rfl
    have hfs : finalState (Circuit.mk 1 ([] : List Gate) [0]) = initState := rfl
    rw [show outcomeString (Circuit.mk 1 ([] : List Gate) [0]).numQubits 0 = "0" from rfl,
      finalDistribution_one_0 _ hq, hfs]
    simp [initState]

/-- C9 (witness): the gate-free circuit at repetitions = -1, occupied
variant, measures "00" with probability 1. -/
theorem claim_C9_witness :
    (-1 : ℤ) ≤ -1 ∧
    ((build_zeno_circuit (-1) true).gates = [] ∧
      finalDistribution (build_zeno_circuit (-1) true)
        (outcomeString (build_zeno_circuit (-1) true).numQubits 0) = 1) :=
  ⟨le_refl (-1), claim_C9 (-1) (le_refl (-1)) true⟩

/-- C10: parse_input never lets an exception escape (every fallible step of
the try block is caught by the bare except) and returns either a pair of
indices each in [0, 4) or the pair (none, none). -/
theorem claim_C10 (s : String) :
    parse_input s = (none, none) ∨
    ∃ r c : ℤ, parse_input s = (some r, some c) ∧ 0 ≤ r ∧ r < 4 ∧ 0 ≤ c ∧ c < 4 := by
  cases h : parse_input_body s with
  | none => exact Or.inl (by simp [parse_input, h])
  | some rc =>
    refine Or.inr ⟨rc.1, rc.2, by simp [parse_input, h], ?_⟩
    exact parse_input_body_range h

end

end Battleship

